import Mathlib

/-!
# Verification of the midiparser decode pipeline

Shallow embedding of the repository's Rust sources:
  * `src/util.rs`      — `read_variable_length`, `tempo2qpm`
  * `src/message.rs`   — `EventStatus`, `MetaStatus`, message accessors
  * `src/io.rs`        — `MIDIMessageIter::next` (running status, sysex, meta framing)
  * `src/sequence.rs`  — `Sequence::from_midi`, `Sequence::start_in_measure`

Modelling conventions:
  * machine integers (`u8`, `u16`, `u32`, `usize`) are `Nat`; wrapping never
    matters on the inputs of the theorems below and is noted where the source
    could overflow;
  * `f32` quantities (times in fractional quarter notes, qpm) are modelled as
    exact rationals `ℚ`, matching the spec's exact arithmetic statements;
  * fallible paths (Rust panics and `Err` returns) are modelled with `Option`:
    `none` means the Rust code panics or returns an error at that point;
  * Rust slices of byte buffers are `List Nat`; an out-of-range read that would
    panic in Rust is modelled explicitly with a bounds test where a claim
    depends on it.
-/

namespace Midiparser

/-- Status classes of `message.rs` (`enum EventStatus`). -/
inductive EventStatus where
  | NoteOff
  | NoteOn
  | PolyphonicAfterTouch
  | ControlChange
  | ProgramChange
  | ChannelAfterTouch
  | PitchBend
  | SysExStart
  | SongPositionPointer
  | SongSelect
  | TuneRequest
  | SysExEnd
  | TimingClock
  | StartSequence
  | ContinueSequence
  | StopSequence
  | ActiveSensing
  | Meta
  deriving DecidableEq, Repr

/-- Meta-event classes of `message.rs` (`enum MetaStatus`). -/
inductive MetaStatus where
  | SequenceNumber
  | Text
  | CopyrightNote
  | TrackName
  | InstrumentName
  | Lyric
  | Marker
  | CuePoint
  | ChannelPrefixMeta
  | EndOfTrack
  | SetTempo
  | SMPTEOffset
  | TimeSignature
  | KeySignature
  | SequencerSpecificMeta
  | Unknown
  deriving DecidableEq, Repr

/-- The `EventStatus::from_status_code` (message.rs).  Returns the status class and
the event length (including the status byte); the length is `-1 : Int` for the
variable-length statuses 0xF0 and 0xFF, exactly as the `i8` in the source.
`none` models the `panic!("Event status code ... not implemented!")` arm. -/
def EventStatus.from_status_code (status : Nat) : Option (EventStatus × Int) :=
  if 0x80 ≤ status ∧ status ≤ 0x8F then some (.NoteOff, 3)
  else if 0x90 ≤ status ∧ status ≤ 0x9F then some (.NoteOn, 3)
  else if 0xA0 ≤ status ∧ status ≤ 0xAF then some (.PolyphonicAfterTouch, 3)
  else if 0xB0 ≤ status ∧ status ≤ 0xBF then some (.ControlChange, 3)
  else if 0xC0 ≤ status ∧ status ≤ 0xCF then some (.ProgramChange, 2)
  else if 0xD0 ≤ status ∧ status ≤ 0xDF then some (.ChannelAfterTouch, 2)
  else if 0xE0 ≤ status ∧ status ≤ 0xEF then some (.PitchBend, 3)
  else if status = 0xF0 then some (.SysExStart, -1)
  else if status = 0xF2 then some (.SongPositionPointer, 3)
  else if status = 0xF3 then some (.SongSelect, 2)
  else if status = 0xF6 then some (.TuneRequest, 1)
  else if status = 0xF7 then some (.SysExEnd, 1)
  else if status = 0xF8 then some (.TimingClock, 1)
  else if status = 0xFA then some (.StartSequence, 1)
  else if status = 0xFB then some (.ContinueSequence, 1)
  else if status = 0xFC then some (.StopSequence, 1)
  else if status = 0xFE then some (.ActiveSensing, 1)
  else if status = 0xFF then some (.Meta, -1)
  else none

/-- The `MetaStatus::from_status_code` (message.rs). Total: unknown codes map to
`Unknown`. -/
def MetaStatus.from_status_code (status : Nat) : MetaStatus :=
  if status = 0x00 then .SequenceNumber
  else if status = 0x01 then .Text
  else if status = 0x02 then .CopyrightNote
  else if status = 0x03 then .TrackName
  else if status = 0x04 then .InstrumentName
  else if status = 0x05 then .Lyric
  else if status = 0x06 then .Marker
  else if status = 0x07 then .CuePoint
  else if status = 0x20 then .ChannelPrefixMeta
  else if status = 0x2F then .EndOfTrack
  else if status = 0x51 then .SetTempo
  else if status = 0x54 then .SMPTEOffset
  else if status = 0x58 then .TimeSignature
  else if status = 0x59 then .KeySignature
  else if status = 0x7F then .SequencerSpecificMeta
  else .Unknown

/-- Loop body of `read_variable_length` (util.rs): iterate over the (at most 4)
window bytes, accumulating 7 bits per byte, stopping at the first byte whose
top bit is clear.  The first component is the 1-based index of the stopping
byte (`bytes` in the source; 0 when no byte in the window terminates), the
second is the accumulated value. -/
def rvlAux : List Nat → Nat → Nat → Nat × Nat
  | [], _, value => (0, value)
  | n :: rest, i, value =>
    let value := (value <<< 7) + (n &&& 0x7f)
    if n &&& 0x80 ≠ 0x80 then (i + 1, value) else rvlAux rest (i + 1) value

/-- The `read_variable_length` (util.rs) over the 4-byte window passed by the
callers in io.rs. -/
def read_variable_length (data : List Nat) : Nat × Nat :=
  rvlAux data 0 0

/-- The `tempo2qpm` (util.rs): `6e7 / tempo`, modelled exactly over `ℚ`. -/
def tempo2qpm (tempo : Nat) : ℚ :=
  60000000 / (tempo : ℚ)

/-- The raw message produced by `MIDIMessageIter` in io.rs: absolute tick time,
status class, and the materialized message bytes (status byte first). -/
structure MIDIMessage where
  time : Nat
  status : EventStatus
  data : List Nat
  deriving DecidableEq, Repr

/-- The fields of `struct MIDIMessageIter` (io.rs): the track payload, its
declared byte count, the cursor (byte and tick offsets), and the running-status
state (`last_status`, `last_event_len`, `last_status_code`). -/
structure MIDIMessageIter where
  data : List Nat
  bytes : Nat
  byteOffset : Nat
  tickOffset : Nat
  lastStatus : EventStatus
  lastEventLen : Nat
  lastStatusCode : Nat
  deriving DecidableEq, Repr

/-- The `MIDIMessageIter::from_bytes` (io.rs). -/
def MIDIMessageIter.from_bytes (data : List Nat) (bytes : Nat) : MIDIMessageIter :=
  { data := data, bytes := bytes, byteOffset := 0, tickOffset := 0,
    lastStatus := .Meta, lastEventLen := 0, lastStatusCode := 0 }

/-- The Rust slice `l[a..b]` (callers check bounds before using it). -/
def slice (l : List Nat) (a b : Nat) : List Nat :=
  (l.drop a).take (b - a)

/-- The `MIDIMessageIter::next` (io.rs).  `none` models both the iterator's
`None` (cursor exhausted) and any Rust panic inside `next` (out-of-range
slice, `usize` underflow on `last_event_len - 1` when no running status is
established, unknown status code); every theorem below only ever asserts a
`some` result, so the two cannot be confused. -/
def MIDIMessageIter.next (st : MIDIMessageIter) : Option (MIDIMessage × MIDIMessageIter) :=
  if st.byteOffset ≥ st.bytes then none
  else if st.byteOffset + 4 > st.data.length then none  -- slice for the delta VLQ panics
  else
    let (b, value) := read_variable_length (slice st.data st.byteOffset (st.byteOffset + 4))
    let off := st.byteOffset + b
    let tick := st.tickOffset + value
    if hoff : off ≥ st.data.length then none  -- `self.data[self.byte_offset]` panics
    else
      let thisStatus := st.data.get ⟨off, by omega⟩
      if thisStatus ≤ 0x7F then
        -- running status: original length - 1
        if st.lastEventLen = 0 then none  -- usize underflow panic
        else if off + (st.lastEventLen - 1) > st.data.length then none  -- slice panic
        else
          let message := st.lastStatusCode :: slice st.data off (off + (st.lastEventLen - 1))
          some ({ time := tick, status := st.lastStatus, data := message },
                { st with byteOffset := off + (st.lastEventLen - 1), tickOffset := tick })
      else if thisStatus = 0xF0 then
        -- sysex: scan forward for 0xF7; `last_event_len` is untouched when none is found
        match EventStatus.from_status_code thisStatus with
        | none => none
        | some (status, _) =>
          let len := match (st.data.drop off).findIdx? (fun v => v = 0xF7) with
            | some idx => idx
            | none => st.lastEventLen
          if off + len > st.data.length then none  -- slice panic
          else
            some ({ time := tick, status := status, data := slice st.data off (off + len) },
                  { st with byteOffset := off + len, tickOffset := tick,
                            lastStatus := status, lastEventLen := len,
                            lastStatusCode := thisStatus })
      else if thisStatus ≤ 0xFE then
        -- fixed-length message: 0x80..=0xFE (updates the running-status state)
        match EventStatus.from_status_code thisStatus with
        | none => none  -- `panic!("Event status code ... not implemented!")`
        | some (status, eventLen) =>
          let len := eventLen.toNat
          if off + len > st.data.length then none  -- slice panic
          else
            some ({ time := tick, status := status, data := slice st.data off (off + len) },
                  { st with byteOffset := off + len, tickOffset := tick,
                            lastStatus := status, lastEventLen := len,
                            lastStatusCode := thisStatus })
      else
        -- 0xFF meta: VLQ length after type code, zero-padded near end of buffer;
        -- the running-status state is untouched
        let window := match st.data.get? (off + 5) with
          | some _ => slice st.data (off + 2) (off + 6)
          | none => [0, 0, 0, 0]
        let (mlb, metalen0) := read_variable_length window
        let metalen := metalen0 + mlb + 2
        if off + metalen > st.data.length then none  -- slice panic
        else
          some ({ time := tick, status := .Meta, data := slice st.data off (off + metalen) },
                { st with byteOffset := off + metalen, tickOffset := tick })

/-- The `struct Event` (message.rs): channel voice/mode message.  `data` is the
`[u8; 8]` array whose first byte is the status code. -/
structure Event where
  time : Nat
  status : EventStatus
  data : List Nat
  deriving DecidableEq, Repr

/-- The `struct Meta` (message.rs): meta message; `data` is the boxed byte run
`[0xFF, type, vlq-length bytes, payload...]`. -/
structure Meta where
  time : Nat
  status : MetaStatus
  data : List Nat
  deriving DecidableEq, Repr

/-- The `enum MIDIMessage` of message.rs (the tagged union consumed by
`Sequence::from_midi`).  Named `Message` here because io.rs's struct of the
same name is also embedded above. -/
inductive Message where
  | Event (e : Event)
  | Meta (m : Meta)
  deriving DecidableEq, Repr

/-- The `Event::channel` (message.rs): `data[0] & 0x0F` for channel messages. -/
def Event.channel (e : Event) : Option Nat :=
  match e.status with
  | .NoteOff | .NoteOn | .PolyphonicAfterTouch | .ControlChange
  | .ProgramChange | .ChannelAfterTouch | .PitchBend => some (e.data.getD 0 0 &&& 0x0F)
  | _ => none

/-- The `Event::key` (message.rs): `data[1]` for note/poly-aftertouch messages. -/
def Event.key (e : Event) : Option Nat :=
  match e.status with
  | .NoteOff | .NoteOn | .PolyphonicAfterTouch => some (e.data.getD 1 0)
  | _ => none

/-- The `Event::velocity` (message.rs): `data[2]` for note/poly-aftertouch
messages. -/
def Event.velocity (e : Event) : Option Nat :=
  match e.status with
  | .NoteOff | .NoteOn | .PolyphonicAfterTouch => some (e.data.getD 2 0)
  | _ => none

/-- The `Event::control_change` (message.rs): `(data[1], data[2])` for CC. -/
def Event.control_change (e : Event) : Option (Nat × Nat) :=
  match e.status with
  | .ControlChange => some (e.data.getD 1 0, e.data.getD 2 0)
  | _ => none

/-- The `Event::program` (message.rs): `data[1]` for program change. -/
def Event.program (e : Event) : Option Nat :=
  match e.status with
  | .ProgramChange => some (e.data.getD 1 0)
  | _ => none

/-- The `Meta::meta_value` (message.rs): `&data[3..]`. -/
def Meta.meta_value (m : Meta) : List Nat :=
  m.data.drop 3

/-- The `Meta::tempo` (message.rs).  The outer `Option` is the Rust panic: for a
`SetTempo` meta the source copies `data[3..6]` into a `u32`, which panics when
the payload is truncated (`data.len() < 6`); the accessor's own `Option` (inner)
is `none` only for a non-`SetTempo` status. -/
def Meta.tempo (m : Meta) : Option (Option Nat) :=
  match m.status with
  | .SetTempo =>
    if 6 ≤ m.data.length then
      some (some (m.data.getD 3 0 * 65536 + m.data.getD 4 0 * 256 + m.data.getD 5 0))
    else none  -- `copy_from_slice(&self.data[3..6])` panics
  | _ => some none

/-- A byte reinterpreted as Rust `i8` (`as i8`). -/
def toI8 (b : Nat) : Int :=
  if b < 128 then (b : Int) else (b : Int) - 256

/-- The `Meta::key_signature` (message.rs), with the value rendered as the
`(major?, sharps/flats)` pair stored by sequence.rs's `KeySignature.key`.
Outer `Option` models the panics: reading `data[4]`/`data[3]` out of range, or
a sharps/flats count outside `-7..=7` (`panic!("Not a valid key signature.")`).
Inner `Option` is `none` only for a non-`KeySignature` status. -/
def Meta.key_signature (m : Meta) : Option (Option (Bool × Int)) :=
  match m.status with
  | .KeySignature =>
    if 5 ≤ m.data.length then
      let sf := toI8 (m.data.getD 3 0)
      if -7 ≤ sf ∧ sf ≤ 7 then some (some (m.data.getD 4 0 = 0, sf))
      else none  -- `panic!("Not a valid key signature.")`
    else none  -- `self.data[4]` / `self.data[3]` panics
  | _ => some none

/-- The `Meta::time_signature` (message.rs): `(data[3], 1 << data[4], data[5],
data[6])`.  Outer `Option` models the out-of-range panic when the payload is
truncated (`data.len() < 7`).  The `1 << data[4]` is a `u8` shift; it is
modelled with the release-mode masked shift (a shift amount `≥ 8` would panic
in debug builds; no theorem below uses such an input). -/
def Meta.time_signature (m : Meta) : Option (Option (Nat × Nat × Nat × Nat)) :=
  match m.status with
  | .TimeSignature =>
    if 7 ≤ m.data.length then
      some (some (m.data.getD 3 0, (1 <<< (m.data.getD 4 0 % 8)) % 256,
                  m.data.getD 5 0, m.data.getD 6 0))
    else none  -- `self.data[6]` etc. panics
  | _ => some none

/-! ## sequence.rs data model -/

/-- The `struct Note` (sequence.rs).  Times are fractional quarter notes,
modelled as exact rationals. -/
structure Note where
  pitch : Nat
  start : ℚ
  duration : ℚ
  velocity : Nat
  deriving DecidableEq, Repr

/-- The `struct ControlChange` (sequence.rs). -/
structure ControlChange where
  time : ℚ
  value : Nat
  deriving DecidableEq, Repr

/-- The `struct TimeSignature` (sequence.rs). -/
structure TimeSignature where
  time : ℚ
  numerator : Nat
  denominator : Nat
  deriving DecidableEq, Repr

/-- The `struct KeySignature` (sequence.rs); `key` is the `(major?, sharps)`
pair. -/
structure KeySignature where
  time : ℚ
  key : Bool × Int
  deriving DecidableEq, Repr

/-- The `struct Tempo` (sequence.rs). -/
structure Tempo where
  time : ℚ
  qpm : ℚ
  deriving DecidableEq, Repr

/-- The `struct Track` (sequence.rs).  The track name is kept as its raw bytes
(Rust stores a `String`; `from_midi` panics on invalid UTF-8, which no claim
touches).  `controls : HashMap<u8, Vec<ControlChange>>` is an association
list keyed by controller number, in first-insertion order. -/
structure Track where
  name : List Nat
  program : Nat
  is_drum : Bool
  notes : List Note
  controls : List (Nat × List ControlChange)
  deriving DecidableEq, Repr

/-- The `Track::default()`. -/
def Track.default : Track :=
  { name := [], program := 0, is_drum := false, notes := [], controls := [] }

/-- The `struct Sequence` (sequence.rs). -/
structure Sequence where
  tracks : List Track
  time_signatures : List TimeSignature
  key_signatures : List KeySignature
  qpm : List Tempo
  deriving DecidableEq, Repr

/-- The `MIDIFile` consumed by `Sequence::from_midi` (sequence.rs): the
division word and each source track's fully drained message list. -/
structure MIDIFile where
  division : Nat
  tracks : List (List Message)
  deriving DecidableEq, Repr

def DEFAULT_QPM : ℚ := 120

def DEFAULT_TEMPO : Nat := 500000

/-- The `HashMap::entry(k).or_insert(dflt)` followed by a mutation `f` of the
entry; the association list keeps first-insertion order. -/
def updateEntry (m : List ((Nat × Nat) × Track)) (k : Nat × Nat) (dflt : Track)
    (f : Track → Track) : List ((Nat × Nat) × Track) :=
  match m with
  | [] => [(k, f dflt)]
  | (k', t) :: rest =>
    if k' = k then (k', f t) :: rest else (k', t) :: updateEntry rest k dflt f

/-- Same for the per-track `controls` map keyed by controller number. -/
def updateCtrl (m : List (Nat × List ControlChange)) (k : Nat) (c : ControlChange) :
    List (Nat × List ControlChange) :=
  match m with
  | [] => [(k, [c])]
  | (k', cs) :: rest =>
    if k' = k then (k', cs ++ [c]) :: rest else (k', cs) :: updateCtrl rest k c

/-- The per-source-track scratch state of `from_midi`: `cur_instr` (the
16-entry current-program array) and `last_note_on` (16×128 table of
(start tick, velocity)), modelled as total functions. -/
structure ScanState where
  curInstr : Nat → Nat
  lastNoteOn : Nat → Nat → Nat × Nat

def ScanState.init : ScanState :=
  { curInstr := fun _ => 0, lastNoteOn := fun _ _ => (0, 0) }

/-- The accumulating state of `from_midi`'s main loop. -/
structure BuildState where
  qpm : List Tempo
  time_signatures : List TimeSignature
  key_signatures : List KeySignature
  tracks : List ((Nat × Nat) × Track)
  track_names : List (List Nat)
  deriving DecidableEq, Repr

/-- The `MIDIMessage::Event` arm of the message loop in `Sequence::from_midi`
(sequence.rs lines 134–188).  The `u32` subtraction `event.time - start` is
modelled by truncated `Nat` subtraction (the Rust debug build would panic when
a note-off precedes its note-on; every theorem below uses non-decreasing
times). -/
def processEvent (tpq : ℚ) (trackIdx : Nat) (ss : ScanState) (bs : BuildState)
    (event : Event) : Option (ScanState × BuildState) :=
  let cur : ℚ := (event.time : ℚ) / tpq
  match event.status with
    | .ProgramChange =>
      let ch := (event.channel).getD 0
      some ({ ss with curInstr := fun c => if c = ch then (event.program).getD 0 else ss.curInstr c }, bs)
    | .ControlChange =>
      let ch := (event.channel).getD 0
      match event.control_change with
      | none => none  -- `.unwrap()`; unreachable for this status
      | some (ctrlK, ctrlV) =>
        let dflt := { Track.default with program := ss.curInstr ch, is_drum := ch = 9 }
        let tracks' := updateEntry bs.tracks (trackIdx, ch) dflt
          (fun t => { t with controls := updateCtrl t.controls ctrlK ⟨cur, ctrlV⟩ })
        some (ss, { bs with tracks := tracks' })
    | .NoteOn | .NoteOff =>
      let velocity := (event.velocity).getD 0
      let ch := (event.channel).getD 0
      match event.key with
      | none => none  -- `.unwrap()`; unreachable for these statuses
      | some pitch =>
        if velocity = 0 ∨ event.status = .NoteOff then
          let start := (ss.lastNoteOn ch pitch).1
          let onVel := (ss.lastNoteOn ch pitch).2
          if onVel ≠ 0 then
            let dflt := { Track.default with program := ss.curInstr ch, is_drum := ch = 9 }
            let note : Note := { pitch := pitch, velocity := onVel,
                                 start := (start : ℚ) / tpq,
                                 duration := ((event.time - start : Nat) : ℚ) / tpq }
            let tracks' := updateEntry bs.tracks (trackIdx, ch) dflt
              (fun t => { t with notes := t.notes ++ [note] })
            some ({ ss with lastNoteOn := fun c p =>
                      if c = ch ∧ p = pitch then (start, 0) else ss.lastNoteOn c p },
                  { bs with tracks := tracks' })
          else some (ss, bs)
        else
          some ({ ss with lastNoteOn := fun c p =>
                    if c = ch ∧ p = pitch then (event.time, velocity) else ss.lastNoteOn c p },
                bs)
    | _ => some (ss, bs)  -- pass unused event

/-- The `MIDIMessage::Meta` arm of the message loop in `Sequence::from_midi`
(sequence.rs lines 189–220).  `none` models a Rust panic (truncated meta
payload reaching an accessor, or an invalid key signature). -/
def processMeta (tpq : ℚ) (trackIdx : Nat) (ss : ScanState) (bs : BuildState)
    (meta : Meta) : Option (ScanState × BuildState) :=
  let cur : ℚ := (meta.time : ℚ) / tpq
  match meta.status with
  | .SetTempo =>
    match meta.tempo with
    | none => none  -- truncated payload: Rust panics
    | some t => some (ss, { bs with qpm := bs.qpm ++ [⟨cur, tempo2qpm (t.getD DEFAULT_TEMPO)⟩] })
  | .TimeSignature =>
    match meta.time_signature with
    | none => none  -- truncated payload: Rust panics
    | some t =>
      let v := t.getD (4, 4, 0, 0)
      some (ss, { bs with time_signatures := bs.time_signatures ++ [⟨cur, v.1, v.2.1⟩] })
  | .KeySignature =>
    match meta.key_signature with
    | none => none  -- truncated/invalid payload: Rust panics
    | some none => none  -- `.unwrap()`; unreachable for this status
    | some (some k) =>
      some (ss, { bs with key_signatures := bs.key_signatures ++ [⟨cur, k⟩] })
  | .TrackName =>
    some (ss, { bs with track_names := bs.track_names.set trackIdx meta.meta_value })
  | _ => some (ss, bs)  -- pass unknown meta

/-- One iteration of the message loop in `Sequence::from_midi` (sequence.rs
lines 132–222), dispatching on the message variant. -/
def processMessage (tpq : ℚ) (trackIdx : Nat) (st : ScanState × BuildState)
    (msg : Message) : Option (ScanState × BuildState) :=
  match msg with
  | .Event event => processEvent tpq trackIdx st.1 st.2 event
  | .Meta meta => processMeta tpq trackIdx st.1 st.2 meta

/-- The scan of one source track in `from_midi`: fresh `cur_instr` /
`last_note_on` state, then the message loop. -/
def processTrack (tpq : ℚ) (bs : BuildState) (track : Nat × List Message) :
    Option BuildState :=
  (track.2.foldlM (processMessage tpq track.1) (ScanState.init, bs)).map (·.2)

/-- The main loop of `Sequence::from_midi` (sequence.rs lines 119–223): the
division guard and the per-track scans, before the final sort/flatten. -/
def buildTracks (midi : MIDIFile) : Option BuildState :=
  if midi.division >>> 15 = 1 then none  -- Err: SMPTE division unsupported
  else
    midi.tracks.enum.foldlM (processTrack (midi.division : ℚ))
      { qpm := [], time_signatures := [], key_signatures := [], tracks := [],
        track_names := List.replicate midi.tracks.length [] }

/-- Rust's stable `sort_by(|a, b| a.time.partial_cmp(&b.time).unwrap())`,
keyed by the given time projection. -/
def sortByTime {α : Type} (time : α → ℚ) (l : List α) : List α :=
  l.mergeSort (fun a b => decide (time a ≤ time b))

/-- The finalization of `from_midi` (sequence.rs lines 225–243), with the
iteration order of the `(track, channel)` `HashMap` abstracted as the `order`
parameter: Rust's `HashMap::into_iter` order is unspecified (seeded per map
instance), so any rearrangement of the collected entries is a possible
output. -/
def finalizeWith (order : List ((Nat × Nat) × Track) → List ((Nat × Nat) × Track))
    (bs : BuildState) : Sequence :=
  let qpm := sortByTime Tempo.time bs.qpm
  let time_signatures := sortByTime TimeSignature.time bs.time_signatures
  let key_signatures := sortByTime KeySignature.time bs.key_signatures
  let qpm := match qpm with
    | [] => [⟨0, DEFAULT_QPM⟩]
    | t0 :: rest => if 0 < t0.time then ⟨0, DEFAULT_QPM⟩ :: t0 :: rest else t0 :: rest
  { tracks := (order bs.tracks).map
      (fun kt => { kt.2 with name := bs.track_names.getD kt.1.1 [] }),
    time_signatures := time_signatures,
    key_signatures := key_signatures,
    qpm := qpm }

/-- The `Sequence::from_midi` with the hash-map iteration order made explicit. -/
def Sequence.from_midiWith
    (order : List ((Nat × Nat) × Track) → List ((Nat × Nat) × Track))
    (midi : MIDIFile) : Option Sequence :=
  (buildTracks midi).map (finalizeWith order)

/-- The `Sequence::from_midi` (sequence.rs), with insertion order as the canonical
iteration order of the track map. -/
def Sequence.from_midi (midi : MIDIFile) : Option Sequence :=
  Sequence.from_midiWith id midi

/-- Truncation of a rational toward zero (`Int.tdiv` is truncating integer
division and a rational's denominator is positive). -/
def truncQ (q : ℚ) : Int :=
  q.num.tdiv q.den

/-- The IEEE remainder operator `%` of Rust `f32`, over exact rationals:
`a - b * trunc(a / b)` (the result carries the sign of `a`).  For `b = 0`
Rust produces NaN; here the rational convention `a / 0 = 0` gives `a`;
nothing proved below divides by zero. -/
def fRem (a b : ℚ) : ℚ :=
  a - b * truncQ (a / b)

/-- Per-note state of the `start_in_measure` scan: current signature index,
current signature, and the time threshold of the next signature (`none` models
the `f32::MAX` sentinel). -/
structure MeasureScan where
  idx : Nat
  thisSig : TimeSignature
  nextT : Option ℚ
  starts : List ℚ

/-- The body of the note loop in `Sequence::start_in_measure` (sequence.rs
lines 279–286), including the source's literal `self.time_signatures[1]`
in the advance step.  `none` models an out-of-range index panic. -/
def measureStep (ts : List TimeSignature) (st : MeasureScan) (note : Note) :
    Option MeasureScan :=
  let advance := match st.nextT with
    | some nt => decide (note.start ≥ nt)
    | none => false  -- `note.start >= f32::MAX` never fires for real times
  if advance then
    let idx := st.idx + 1
    match ts.get? idx with
    | none => none  -- index panic
    | some sig =>
      -- source bug kept verbatim: the new threshold reads `time_signatures[1]`,
      -- not `time_signatures[idx + 1]`; when `idx < len - 1` the list has at
      -- least two entries, so that read itself cannot panic
      let nextT := if idx < ts.length - 1 then (ts.get? 1).map TimeSignature.time else none
      some { idx := idx, thisSig := sig, nextT := nextT,
             starts := st.starts ++ [fRem (note.start - sig.time) (sig.numerator : ℚ)] }
  else
    some { st with
           starts := st.starts ++ [fRem (note.start - st.thisSig.time) ((st.thisSig.numerator : ℚ))] }

/-- The `Sequence::start_in_measure` (sequence.rs lines 270–291).  `none` models
the `self.time_signatures[0]` panic when the signature list is empty and at
least one track is scanned. -/
def Sequence.start_in_measure (seq : Sequence) : Option (List (List ℚ)) :=
  seq.tracks.foldlM
    (fun acc track =>
      let nextT := if seq.time_signatures.length > 1
        then (seq.time_signatures.get? 1).map TimeSignature.time
        else none
      match seq.time_signatures.get? 0 with
      | none => none  -- `self.time_signatures[0]` panics
      | some sig0 =>
        (track.notes.foldlM (measureStep seq.time_signatures)
            { idx := 0, thisSig := sig0, nextT := nextT, starts := [] }).map
          (fun st => acc ++ [st.starts]))
    []

/-! ## Claim-side reference definitions and proof scaffolding -/

/-- The standard MIDI VLQ encoding of a value in `[0, 0x0FFFFFFF]`: big-endian
7-bit groups, continuation bit set on every byte but the last.  This is the
reference encoding named by the spec's round-trip property (the crate is
decode-only and has no encoder). -/
def encodeVLQ (v : Nat) : List Nat :=
  if v ≤ 0x7F then [v]
  else if v ≤ 0x3FFF then [0x80 + v / 0x80, v % 0x80]
  else if v ≤ 0x1FFFFF then [0x80 + v / 0x4000, 0x80 + v / 0x80 % 0x80, v % 0x80]
  else [0x80 + v / 0x200000, 0x80 + v / 0x4000 % 0x80, 0x80 + v / 0x80 % 0x80, v % 0x80]

/-- The byte count the spec documents for each VLQ value range. -/
def vlqByteCount (v : Nat) : Nat :=
  if v ≤ 0x7F then 1
  else if v ≤ 0x3FFF then 2
  else if v ≤ 0x1FFFFF then 3
  else 4

/-- The bucketing described by claim C9's words: for each note, the latest
signature `s` of the (sorted) timeline with `s.time ≤ note.start`, producing
`(note.start - s.time) mod s.numerator`. -/
def claimed_start_in_measure (seq : Sequence) : Option (List (List ℚ)) :=
  seq.tracks.mapM (fun track => track.notes.mapM (fun note =>
    ((seq.time_signatures.filter (fun s => decide (s.time ≤ note.start))).getLast?).map
      (fun s => fRem (note.start - s.time) (s.numerator : ℚ))))

/-- A `SetTempo` meta message. -/
def isSetTempo (msg : Message) : Bool :=
  match msg with
  | .Meta m => m.status = .SetTempo
  | .Event _ => false

/-- A `TimeSignature` meta message. -/
def isTimeSigMeta (msg : Message) : Bool :=
  match msg with
  | .Meta m => m.status = .TimeSignature
  | .Event _ => false

/-- The messages relevant to the open-note entry of channel `c`, pitch `p`:
note-on/note-off events whose channel byte and key byte (as the builder reads
them) are `c` and `p`. -/
def isCP (c p : Nat) (msg : Message) : Bool :=
  match msg with
  | .Event e =>
    decide ((e.status = .NoteOn ∨ e.status = .NoteOff) ∧
            (e.channel).getD 0 = c ∧ (e.key).getD 0 = p)
  | .Meta _ => false

/-- The abstract (channel, pitch) note machine: state is the open-note entry
`(start tick, velocity)` together with the pitch-`p` notes already emitted
into the `(track, c)` track, exactly as the note-on / note-off arms of
`processEvent` drive them. -/
def stepCP (tpq : ℚ) (s : (Nat × Nat) × List Note) (msg : Message) :
    (Nat × Nat) × List Note :=
  match msg with
  | .Event e =>
    let velocity := (e.velocity).getD 0
    if velocity = 0 ∨ e.status = .NoteOff then
      let start := s.1.1
      let onVel := s.1.2
      if onVel ≠ 0 then
        ((start, 0), s.2 ++ [{ pitch := (e.key).getD 0, velocity := onVel,
                               start := (start : ℚ) / tpq,
                               duration := ((e.time - start : Nat) : ℚ) / tpq }])
      else s
    else ((e.time, velocity), s.2)
  | .Meta _ => s

/-- The pitch-`p` notes recorded under key `k` of the track map. -/
def notesP (tracks : List ((Nat × Nat) × Track)) (k : Nat × Nat) (p : Nat) : List Note :=
  ((tracks.lookup k).getD Track.default).notes.filter (fun n => decide (n.pitch = p))

/-- Projection of the concrete builder state onto the abstract (channel,
pitch) machine for key `(trackIdx, c)` and pitch `p`. -/
def projCP (trackIdx c p : Nat) (st : ScanState × BuildState) :
    (Nat × Nat) × List Note :=
  (st.1.lastNoteOn c p, notesP st.2.tracks (trackIdx, c) p)

/-! ## Concrete inputs for the claims about single code paths -/

/-- A track with a note-on on channel 0, a note-on on channel 9 (drums), and
their note-offs; it produces two `(track, channel)` entries. -/
def twoChannelFile : MIDIFile :=
  { division := 480,
    tracks := [[
      .Event { time := 0, status := .NoteOn, data := [0x90, 60, 80, 0, 0, 0, 0, 0] },
      .Event { time := 0, status := .NoteOn, data := [0x99, 40, 90, 0, 0, 0, 0, 0] },
      .Event { time := 240, status := .NoteOff, data := [0x89, 40, 0, 0, 0, 0, 0, 0] },
      .Event { time := 480, status := .NoteOff, data := [0x80, 60, 0, 0, 0, 0, 0, 0] }]] }

/-- A well-formed sysex run `F0 03 01 02 F7` preceded by its delta time and
followed by an end-of-track meta. -/
def sysexTrack : List Nat := [0x00, 0xF0, 0x03, 0x01, 0x02, 0xF7, 0x00, 0xFF, 0x2F, 0x00]

/-- An unterminated sysex run: `F0 02 01` with no `F7` anywhere after it. -/
def sysexUnterminated : List Nat := [0x00, 0xF0, 0x02, 0x01]

/-- A note-on, then a lone system real-time byte 0xF8, then a running-status
data run `62 100`, then end-of-track. -/
def realtimeTrack : List Nat :=
  [0x00, 0x90, 60, 100, 0x00, 0xF8, 0x00, 62, 100, 0x00, 0xFF, 0x2F, 0x00]

/-- A `SetTempo` meta whose payload is truncated to nothing:
`data = [FF 51 00]`, declared length 0. -/
def truncatedSetTempo : Meta := { time := 0, status := .SetTempo, data := [0xFF, 0x51, 0x00] }

/-- A sequence with a sorted three-entry time-signature timeline and one note
at 5/2 quarter notes, inside the third signature's region. -/
def lateNoteSeq : Sequence :=
  { tracks := [{ name := [], program := 0, is_drum := false,
                 notes := [{ pitch := 60, start := 5/2, duration := 1, velocity := 100 }],
                 controls := [] }],
    time_signatures := [⟨0, 4, 4⟩, ⟨1, 3, 4⟩, ⟨2, 5, 4⟩],
    key_signatures := [], qpm := [⟨0, 120⟩] }

/-! ## C8: VLQ round trip -/

/-! ## C2: running-status expansion -/

/-- The spec's running-status example track `[delta,0x90,60,100]` then
`[delta,62,100]`, closed with an end-of-track meta (the decoder's delta
window `data[off..off+4]` requires 4 readable bytes at every message start,
which a real track's end-of-track trailer provides). -/
def runningStatusTrack : List Nat :=
  [0x00, 0x90, 60, 100, 0x00, 62, 100, 0x00, 0xFF, 0x2F, 0x00]

/-- The decoder state after the explicit `0x90 60 100` note-on of
`runningStatusTrack`. -/
def rsState1 : MIDIMessageIter :=
  { data := runningStatusTrack, bytes := 11, byteOffset := 4, tickOffset := 0,
    lastStatus := .NoteOn, lastEventLen := 3, lastStatusCode := 0x90 }

/-! ## Fold invariants of the builder -/

/-- The state invariant for C4: every recorded timeline entry has a
nonnegative time. -/
def nonnegState (bs : BuildState) : Prop :=
  (∀ x ∈ bs.qpm, 0 ≤ x.time) ∧ (∀ x ∈ bs.time_signatures, 0 ≤ x.time) ∧
  (∀ x ∈ bs.key_signatures, 0 ≤ x.time)

/-! ## C4: timeline invariants and default tempo -/

/-- A one-note file with no meta events at all (division 480, note-on pitch
60 velocity 80 at tick 0, note-off at tick 480). -/
def oneNoteFile : MIDIFile :=
  { division := 480,
    tracks := [[
      .Event { time := 0, status := .NoteOn, data := [0x90, 60, 80, 0, 0, 0, 0, 0] },
      .Event { time := 480, status := .NoteOff, data := [0x80, 60, 0, 0, 0, 0, 0, 0] }]] }

/-! ## C10: absent time signatures and the partiality of start_in_measure -/

/-! ## C1: note correlation -/

/-- Claim C3: decoding is deterministic — the final track list's order must
not depend on unordered-map iteration order.  The code flattens a
`HashMap<(u8, u8), Track>` with `into_iter().collect()`, whose order is
unspecified (each map carries a randomly seeded hasher), so the observable
`Sequence` does depend on it: two possible iteration orders of the same final
map yield structurally different Sequences for `twoChannelFile`. -/
theorem track_order_depends_on_map_iteration :
    Sequence.from_midiWith id twoChannelFile ≠
    Sequence.from_midiWith List.reverse twoChannelFile := by
  with_unfolding_all decide

/-- Claim C5: the claim says a sysex message is framed by a VLQ length read
immediately after 0xF0 (so `F0 03 01 02 F7` consumes 5 bytes, cursor at
offset 6), and that a run not terminated by 0xF7 is a format error.  The
decoder instead scans forward for the first 0xF7 and stops *at* it: on
`sysexTrack` it consumes only 4 bytes (message `[F0, 03, 01, 02]`, cursor at
offset 5, pointing at the F7); and on `sysexUnterminated` it emits a message
(an empty one, from the stale `last_event_len = 0`) instead of failing. -/
theorem sysex_scans_for_f7_instead_of_vlq_length :
    (((MIDIMessageIter.from_bytes sysexTrack 10).next).map
      (fun p => (p.1.data, p.2.byteOffset)) = some ([0xF0, 3, 1, 2], 5)) ∧
    (((MIDIMessageIter.from_bytes sysexUnterminated 4).next).map
      (fun p => (p.1.data, p.2.byteOffset)) = some ([], 1)) := by
  with_unfolding_all decide

/-- Claim C6: the claim says meta and system real-time bytes leave the
running-status state unchanged.  Metas do, but the decoder's
`0x80..=0xFE` arm covers the system real-time bytes as well: after the 0xF8
on `realtimeTrack` the stored status byte changes from 0x90 to 0xF8 and the
stored event length from 3 to 1, so the following running-status data byte 62
is expanded to the nonsense one-byte message `[0xF8]` instead of a NoteOn. -/
theorem realtime_byte_updates_running_status :
    (((MIDIMessageIter.from_bytes realtimeTrack 13).next).map
      (fun p => (p.2.lastStatusCode, p.2.lastEventLen)) = some (0x90, 3)) ∧
    ((((MIDIMessageIter.from_bytes realtimeTrack 13).next).bind (fun p => p.2.next)).map
      (fun p => (p.1.status, p.2.lastStatusCode, p.2.lastEventLen))
        = some (.TimingClock, 0xF8, 1)) ∧
    (((((MIDIMessageIter.from_bytes realtimeTrack 13).next).bind (fun p => p.2.next)).bind
        (fun p => p.2.next)).map (fun p => p.1.data) = some [0xF8]) := by
  with_unfolding_all decide

/-- Claim C7: the claim says a truncated tempo payload falls back to the
default 120 qpm without failing the decode.  In the code the fallback
`unwrap_or(DEFAULT_TEMPO)` is dead for truncation: `Meta::tempo` slices
`data[3..6]` first and panics, so the whole decode dies (`none`) instead of
producing a sequence with the default tempo entry. -/
theorem truncated_tempo_panics_instead_of_default :
    Sequence.from_midi { division := 480, tracks := [[.Meta truncatedSetTempo]] } = none := by
  with_unfolding_all decide

/-- Claim C9: the claim says each note is bucketed against the latest
signature whose time is ≤ the note's start.  For `lateNoteSeq`'s note at 5/2
that signature is `⟨2, 5, 4⟩`, giving `(5/2 - 2) mod 5 = 1/2`
(`claimed_start_in_measure`).  The code advances at most one signature per
note and recomputes the next threshold from the literal index
`time_signatures[1]`, so it stops at `⟨1, 3, 4⟩` and returns
`(5/2 - 1) mod 3 = 3/2`. -/
theorem start_in_measure_uses_wrong_signature :
    Sequence.start_in_measure lateNoteSeq = some [[3/2]] ∧
    claimed_start_in_measure lateNoteSeq = some [[1/2]] ∧
    ((3 : ℚ)/2 ≠ 1/2) := by
  with_unfolding_all decide

lemma land127_high : ∀ x < 128, (128 + x) &&& 127 = x := by decide

lemma land128_high : ∀ x < 128, (128 + x) &&& 128 = 128 := by decide

lemma land127_low : ∀ x < 128, x &&& 127 = x := by decide

lemma land128_low : ∀ x < 128, x &&& 128 = 0 := by decide

/-- A continuation byte `128 + x` makes `rvlAux` accumulate `x` and keep
going. -/
lemma rvlAux_high (x : Nat) (hx : x < 128) (l : List Nat) (i acc : Nat) :
    rvlAux ((128 + x) :: l) i acc = rvlAux l (i + 1) ((acc <<< 7) + x) := by
  simp [rvlAux, land127_high x hx, land128_high x hx]

/-- A terminating byte `x < 128` makes `rvlAux` stop, consuming it. -/
lemma rvlAux_low (x : Nat) (hx : x < 128) (l : List Nat) (i acc : Nat) :
    rvlAux (x :: l) i acc = (i + 1, (acc <<< 7) + x) := by
  simp [rvlAux, land127_low x hx, land128_low x hx]

/-- Claim C8: for every value in `[0, 0x0FFFFFFF]`, decoding the standard VLQ
encoding of `v` (followed by anything, as in the 4-byte windows io.rs slices)
returns the documented byte count (1 for ≤ 0x7F, 2 for ≤ 0x3FFF, 3 for
≤ 0x1FFFFF, 4 for ≤ 0x0FFFFFFF) and the original value. -/
theorem vlq_round_trip (v : Nat) (hv : v ≤ 0x0FFFFFFF) (rest : List Nat) :
    read_variable_length (encodeVLQ v ++ rest) = (vlqByteCount v, v) := by
  have hsh : ∀ x : Nat, x <<< 7 = x * 128 := fun x => by rw [Nat.shiftLeft_eq]
  rcases le_or_lt v 0x7F with h1 | h1
  · have e : encodeVLQ v = [v] := by unfold encodeVLQ; rw [if_pos h1]
    have c : vlqByteCount v = 1 := by unfold vlqByteCount; rw [if_pos h1]
    rw [e, c, List.cons_append, List.nil_append, read_variable_length,
      rvlAux_low v (by omega)]
    simp only [hsh, Prod.mk.injEq]
    refine ⟨by trivial, by omega⟩
  · have h1' : ¬ v ≤ 0x7F := by omega
    rcases le_or_lt v 0x3FFF with h2 | h2
    · have e : encodeVLQ v = [128 + v / 128, v % 128] := by
        unfold encodeVLQ; rw [if_neg h1', if_pos h2]
      have c : vlqByteCount v = 2 := by unfold vlqByteCount; rw [if_neg h1', if_pos h2]
      rw [e, c, List.cons_append, List.cons_append, List.nil_append, read_variable_length,
        rvlAux_high (v / 128) (by omega), rvlAux_low (v % 128) (by omega)]
      simp only [hsh, Prod.mk.injEq]
      refine ⟨by trivial, by omega⟩
    · have h2' : ¬ v ≤ 0x3FFF := by omega
      rcases le_or_lt v 0x1FFFFF with h3 | h3
      · have e : encodeVLQ v = [128 + v / 16384, 128 + v / 128 % 128, v % 128] := by
          unfold encodeVLQ; rw [if_neg h1', if_neg h2', if_pos h3]
        have c : vlqByteCount v = 3 := by
          unfold vlqByteCount; rw [if_neg h1', if_neg h2', if_pos h3]
        rw [e, c, List.cons_append, List.cons_append, List.cons_append, List.nil_append,
          read_variable_length, rvlAux_high (v / 16384) (by omega),
          rvlAux_high (v / 128 % 128) (by omega), rvlAux_low (v % 128) (by omega)]
        simp only [hsh, Prod.mk.injEq]
        refine ⟨by trivial, by omega⟩
      · have h3' : ¬ v ≤ 0x1FFFFF := by omega
        have e : encodeVLQ v
            = [128 + v / 2097152, 128 + v / 16384 % 128, 128 + v / 128 % 128, v % 128] := by
          unfold encodeVLQ; rw [if_neg h1', if_neg h2', if_neg h3']
        have c : vlqByteCount v = 4 := by
          unfold vlqByteCount; rw [if_neg h1', if_neg h2', if_neg h3']
        rw [e, c, List.cons_append, List.cons_append, List.cons_append, List.cons_append,
          List.nil_append, read_variable_length, rvlAux_high (v / 2097152) (by omega),
          rvlAux_high (v / 16384 % 128) (by omega), rvlAux_high (v / 128 % 128) (by omega),
          rvlAux_low (v % 128) (by omega)]
        simp only [hsh, Prod.mk.injEq]
        refine ⟨by trivial, by omega⟩

/-- Witness for C8 at one value of each byte count (the 0x40 / 0x2000 /
0x1FFFFF values are the crate's own `test_read_vlq` vectors). -/
theorem vlq_round_trip_witness :
    read_variable_length (encodeVLQ 0x40 ++ [0, 0, 0]) = (1, 0x40) ∧
    read_variable_length (encodeVLQ 0x2000 ++ [0, 0]) = (2, 0x2000) ∧
    read_variable_length (encodeVLQ 0x1FFFFF ++ [0]) = (3, 0x1FFFFF) ∧
    read_variable_length (encodeVLQ 0x0FFFFFFF ++ []) = (4, 0x0FFFFFFF) :=
  ⟨(vlq_round_trip 0x40 (by decide) _).trans (by decide),
   (vlq_round_trip 0x2000 (by decide) _).trans (by decide),
   (vlq_round_trip 0x1FFFFF (by decide) _).trans (by decide),
   (vlq_round_trip 0x0FFFFFFF (by decide) _).trans (by decide)⟩

/-- Claim C2: when a data byte (≤ 0x7F) stands where a status byte is
expected (after a 1-byte delta time `d`), the decoder emits a message that
reuses the stored running status: the message data is the last status byte
followed by the next `last_event_len - 1` stream bytes, the message's status
class is the stored one, and only the cursor advances (the running-status
state itself is unchanged in the output state). -/
theorem running_status_expansion
    (st : MIDIMessageIter) (d b : Nat)
    (hbo : st.byteOffset < st.bytes)
    (hwin : st.byteOffset + 4 ≤ st.data.length)
    (hd : st.data.get? st.byteOffset = some d) (hdlt : d ≤ 0x7F)
    (hb : st.data.get? (st.byteOffset + 1) = some b) (hble : b ≤ 0x7F)
    (hlen : 1 ≤ st.lastEventLen)
    (hbound : st.byteOffset + 1 + (st.lastEventLen - 1) ≤ st.data.length) :
    st.next = some
      ({ time := st.tickOffset + d, status := st.lastStatus,
         data := st.lastStatusCode ::
           slice st.data (st.byteOffset + 1) (st.byteOffset + 1 + (st.lastEventLen - 1)) },
       { st with byteOffset := st.byteOffset + 1 + (st.lastEventLen - 1),
                 tickOffset := st.tickOffset + d }) := by
  have hlt : st.byteOffset < st.data.length := (List.get?_eq_some.mp hd).1
  have hlt1 : st.byteOffset + 1 < st.data.length := (List.get?_eq_some.mp hb).1
  have hslice : slice st.data st.byteOffset (st.byteOffset + 4)
      = d :: ((st.data.drop (st.byteOffset + 1)).take 3) := by
    unfold slice
    rw [List.drop_eq_getElem_cons hlt]
    have hdv : st.data[st.byteOffset] = d := by
      obtain ⟨h, hv⟩ := List.get?_eq_some.mp hd
      simpa using hv
    rw [hdv]
    simp
  have hrvl : read_variable_length (slice st.data st.byteOffset (st.byteOffset + 4))
      = (1, d) := by
    rw [hslice, read_variable_length, rvlAux_low d (by omega)]
    simp [Nat.shiftLeft_eq]
  unfold MIDIMessageIter.next
  rw [if_neg (by omega), if_neg (by omega)]
  simp only [hrvl]
  rw [dif_neg (by omega)]
  have hget : st.data.get ⟨st.byteOffset + 1, by omega⟩ = b := by
    obtain ⟨h, hv⟩ := List.get?_eq_some.mp hb
    simpa using hv
  rw [hget, if_pos hble, if_neg (show ¬ st.lastEventLen = 0 by omega),
    if_neg (show ¬ st.byteOffset + 1 + (st.lastEventLen - 1) > st.data.length by omega)]

/-- Witness for C2: the spec's example decodes the second message as a NoteOn
with pitch 62, velocity 100 under the reused status byte 0x90. -/
theorem running_status_expansion_witness :
    ((MIDIMessageIter.from_bytes runningStatusTrack 11).next = some
      ({ time := 0, status := .NoteOn, data := [0x90, 60, 100] }, rsState1)) ∧
    (rsState1.next = some
      ({ time := 0, status := .NoteOn, data := [0x90, 62, 100] },
       { rsState1 with byteOffset := 7 })) :=
  ⟨by with_unfolding_all decide,
   (running_status_expansion rsState1 0 62 (by decide) (by decide) (by decide) (by decide)
      (by decide) (by decide) (by decide) (by decide)).trans (by with_unfolding_all decide)⟩

/-- An invariant preserved by every step of an `Option`-valued fold holds of
a successful fold's result. -/
lemma foldlM_option_invariant {α β : Type} (f : β → α → Option β) (P : β → Prop)
    (xs : List α) (hf : ∀ b a b', a ∈ xs → f b a = some b' → P b → P b') :
    ∀ (b out : β), xs.foldlM f b = some out → P b → P out := by
  induction xs with
  | nil =>
    intro b out h hb
    simp only [List.foldlM_nil] at h
    cases h
    exact hb
  | cons x xs ih =>
    intro b out h hb
    simp only [List.foldlM_cons] at h
    cases hfb : f b x with
    | none => rw [hfb] at h; cases h
    | some b' =>
      rw [hfb] at h
      exact ih (fun c a c' ha => hf c a c' (List.mem_cons_of_mem x ha)) b' out h
        (hf b x b' (List.mem_cons_self x xs) hfb hb)

/-- The `processEvent` never touches the global timelines or the track names. -/
lemma processEvent_timelines (tpq : ℚ) (i : Nat) (ss : ScanState) (bs : BuildState)
    (e : Event) (st' : ScanState × BuildState) (h : processEvent tpq i ss bs e = some st') :
    st'.2.qpm = bs.qpm ∧ st'.2.time_signatures = bs.time_signatures ∧
    st'.2.key_signatures = bs.key_signatures ∧ st'.2.track_names = bs.track_names := by
  unfold processEvent at h
  dsimp only at h
  repeat' split at h
  all_goals
    first
      | exact Option.noConfusion h
      | (injection h with h; subst h; simp)

/-- What `processMeta` can do to each timeline: leave it alone, or append one
entry whose time is the meta's tick divided by `tpq`; and a timeline is only
extended by its own meta status. -/
lemma processMeta_step (tpq : ℚ) (i : Nat) (ss : ScanState) (bs : BuildState)
    (m : Meta) (st' : ScanState × BuildState) (h : processMeta tpq i ss bs m = some st') :
    (st'.2.qpm = bs.qpm ∨ ∃ q, st'.2.qpm = bs.qpm ++ [q] ∧ q.time = (m.time : ℚ) / tpq) ∧
    (st'.2.time_signatures = bs.time_signatures ∨
      ∃ q, st'.2.time_signatures = bs.time_signatures ++ [q] ∧ q.time = (m.time : ℚ) / tpq) ∧
    (st'.2.key_signatures = bs.key_signatures ∨
      ∃ q, st'.2.key_signatures = bs.key_signatures ++ [q] ∧ q.time = (m.time : ℚ) / tpq) ∧
    (m.status ≠ .SetTempo → st'.2.qpm = bs.qpm) ∧
    (m.status ≠ .TimeSignature → st'.2.time_signatures = bs.time_signatures) ∧
    st'.2.tracks = bs.tracks ∧ st'.1 = ss := by
  unfold processMeta at h
  dsimp only at h
  repeat' split at h
  all_goals
    first
      | exact Option.noConfusion h
      | (injection h with h; subst h; simp_all)

lemma processMessage_nonneg (tpq : ℚ) (htpq : 0 ≤ tpq) (i : Nat)
    (st : ScanState × BuildState) (msg : Message) (st' : ScanState × BuildState)
    (h : processMessage tpq i st msg = some st') (hinv : nonnegState st.2) :
    nonnegState st'.2 := by
  obtain ⟨h1, h2, h3⟩ := hinv
  cases msg with
  | Event e =>
    obtain ⟨e1, e2, e3, _⟩ := processEvent_timelines tpq i st.1 st.2 e st' h
    exact ⟨e1 ▸ h1, e2 ▸ h2, e3 ▸ h3⟩
  | Meta m =>
    have htime : 0 ≤ (m.time : ℚ) / tpq := div_nonneg (by positivity) htpq
    obtain ⟨m1, m2, m3, _, _, _⟩ := processMeta_step tpq i st.1 st.2 m st' h
    refine ⟨?_, ?_, ?_⟩
    · rcases m1 with hq | ⟨q, hq, hqt⟩
      · exact hq ▸ h1
      · rw [hq]
        intro x hx
        rcases List.mem_append.mp hx with hx | hx
        · exact h1 x hx
        · simp only [List.mem_singleton] at hx
          rw [hx, hqt]
          exact htime
    · rcases m2 with hq | ⟨q, hq, hqt⟩
      · exact hq ▸ h2
      · rw [hq]
        intro x hx
        rcases List.mem_append.mp hx with hx | hx
        · exact h2 x hx
        · simp only [List.mem_singleton] at hx
          rw [hx, hqt]
          exact htime
    · rcases m3 with hq | ⟨q, hq, hqt⟩
      · exact hq ▸ h3
      · rw [hq]
        intro x hx
        rcases List.mem_append.mp hx with hx | hx
        · exact h3 x hx
        · simp only [List.mem_singleton] at hx
          rw [hx, hqt]
          exact htime

/-- The `processTrack` preserves any invariant of the build state that every
`processMessage` step preserves. -/
lemma processTrack_invariant (tpq : ℚ) (P : BuildState → Prop)
    (bs bs' : BuildState) (track : Nat × List Message)
    (h : processTrack tpq bs track = some bs')
    (hstep : ∀ st msg st', msg ∈ track.2 → processMessage tpq track.1 st msg = some st' →
      P st.2 → P st'.2)
    (hbs : P bs) : P bs' := by
  unfold processTrack at h
  cases hfold : (track.2.foldlM (processMessage tpq track.1) (ScanState.init, bs)) with
  | none => rw [hfold] at h; cases h
  | some pair =>
    rw [hfold] at h
    simp only [Option.map_some'] at h
    cases h
    exact foldlM_option_invariant (processMessage tpq track.1) (fun st => P st.2) track.2
      (fun b a b' ha hf hb => hstep b a b' ha hf hb) (ScanState.init, bs) pair hfold hbs

/-- Every timeline entry `buildTracks` collects has a nonnegative time. -/
lemma buildTracks_nonneg (midi : MIDIFile) (bs : BuildState)
    (h : buildTracks midi = some bs) : nonnegState bs := by
  unfold buildTracks at h
  split at h
  · cases h
  · refine foldlM_option_invariant (processTrack ((midi.division : Nat) : ℚ)) nonnegState
      midi.tracks.enum (fun b a b' ha hf hb => ?_) _ bs h ⟨by simp, by simp, by simp⟩
    exact processTrack_invariant _ nonnegState b b' a hf
      (fun st msg st' hm hs hp =>
        processMessage_nonneg _ (by positivity) _ st msg st' hs hp) hb

/-- A message that is not a `SetTempo` meta leaves the tempo list alone. -/
lemma processMessage_not_settempo (tpq : ℚ) (i : Nat) (st : ScanState × BuildState)
    (msg : Message) (st' : ScanState × BuildState)
    (h : processMessage tpq i st msg = some st') (hnot : isSetTempo msg = false) :
    st'.2.qpm = st.2.qpm := by
  cases msg with
  | Event e => exact (processEvent_timelines tpq i st.1 st.2 e st' h).1
  | Meta m =>
    have hs : m.status ≠ .SetTempo := by simpa [isSetTempo] using hnot
    exact (processMeta_step tpq i st.1 st.2 m st' h).2.2.2.1 hs

/-- A message that is not a `TimeSignature` meta leaves the time-signature
list alone. -/
lemma processMessage_not_timesig (tpq : ℚ) (i : Nat) (st : ScanState × BuildState)
    (msg : Message) (st' : ScanState × BuildState)
    (h : processMessage tpq i st msg = some st') (hnot : isTimeSigMeta msg = false) :
    st'.2.time_signatures = st.2.time_signatures := by
  cases msg with
  | Event e => exact (processEvent_timelines tpq i st.1 st.2 e st' h).2.1
  | Meta m =>
    have hs : m.status ≠ .TimeSignature := by simpa [isTimeSigMeta] using hnot
    exact (processMeta_step tpq i st.1 st.2 m st' h).2.2.2.2.1 hs

/-- A file with no `SetTempo` meta collects an empty tempo list. -/
lemma buildTracks_no_settempo (midi : MIDIFile) (bs : BuildState)
    (h : buildTracks midi = some bs)
    (hno : ∀ track ∈ midi.tracks, ∀ m ∈ track, isSetTempo m = false) : bs.qpm = [] := by
  unfold buildTracks at h
  split at h
  · cases h
  · refine foldlM_option_invariant (processTrack ((midi.division : Nat) : ℚ))
      (fun b => b.qpm = []) midi.tracks.enum (fun b a b' ha hf hb => ?_) _ bs h rfl
    have ha2 : a.2 ∈ midi.tracks :=
      List.enum_map_snd midi.tracks ▸ List.mem_map_of_mem Prod.snd ha
    exact processTrack_invariant _ (fun b => b.qpm = []) b b' a hf
      (fun st msg st' hm hs hp =>
        (processMessage_not_settempo _ _ st msg st' hs (hno a.2 ha2 msg hm)).trans hp) hb

/-- A file with no `TimeSignature` meta collects an empty time-signature
list. -/
lemma buildTracks_no_timesig (midi : MIDIFile) (bs : BuildState)
    (h : buildTracks midi = some bs)
    (hno : ∀ track ∈ midi.tracks, ∀ m ∈ track, isTimeSigMeta m = false) :
    bs.time_signatures = [] := by
  unfold buildTracks at h
  split at h
  · cases h
  · refine foldlM_option_invariant (processTrack ((midi.division : Nat) : ℚ))
      (fun b => b.time_signatures = []) midi.tracks.enum (fun b a b' ha hf hb => ?_) _ bs h rfl
    have ha2 : a.2 ∈ midi.tracks :=
      List.enum_map_snd midi.tracks ▸ List.mem_map_of_mem Prod.snd ha
    exact processTrack_invariant _ (fun b => b.time_signatures = []) b b' a hf
      (fun st msg st' hm hs hp =>
        (processMessage_not_timesig _ _ st msg st' hs (hno a.2 ha2 msg hm)).trans hp) hb

/-- The `sortByTime` sorts (it is Rust's stable `sort_by` on the total order of
the time values). -/
lemma sortByTime_sorted {α : Type} (time : α → ℚ) (l : List α) :
    List.Pairwise (fun a b => time a ≤ time b) (sortByTime time l) := by
  refine (List.sorted_mergeSort ?_ ?_ l).imp ?_
  · intro a b c hab hbc
    simp only [decide_eq_true_eq] at hab hbc ⊢
    exact le_trans hab hbc
  · intro a b
    simp only [Bool.or_eq_true, decide_eq_true_eq]
    exact le_total (time a) (time b)
  · intro a b hab
    exact of_decide_eq_true hab

lemma sortByTime_mem {α : Type} (time : α → ℚ) (l : List α) (x : α) :
    x ∈ sortByTime time l ↔ x ∈ l :=
  List.mem_mergeSort

lemma sortByTime_nil {α : Type} (time : α → ℚ) : sortByTime time ([] : List α) = [] := by
  simp [sortByTime]

lemma finalizeWith_time_signatures (order : List ((Nat × Nat) × Track) → List ((Nat × Nat) × Track))
    (bs : BuildState) :
    (finalizeWith order bs).time_signatures = sortByTime TimeSignature.time bs.time_signatures :=
  rfl

lemma finalizeWith_key_signatures (order : List ((Nat × Nat) × Track) → List ((Nat × Nat) × Track))
    (bs : BuildState) :
    (finalizeWith order bs).key_signatures = sortByTime KeySignature.time bs.key_signatures :=
  rfl

lemma finalizeWith_qpm (order : List ((Nat × Nat) × Track) → List ((Nat × Nat) × Track))
    (bs : BuildState) :
    (finalizeWith order bs).qpm =
      match sortByTime Tempo.time bs.qpm with
      | [] => [⟨0, DEFAULT_QPM⟩]
      | t0 :: rest => if 0 < t0.time then ⟨0, DEFAULT_QPM⟩ :: t0 :: rest else t0 :: rest :=
  rfl

/-- Successful decoding factors through `buildTracks` and `finalizeWith id`. -/
lemma from_midi_eq (midi : MIDIFile) (seq : Sequence)
    (h : Sequence.from_midi midi = some seq) :
    ∃ bs, buildTracks midi = some bs ∧ seq = finalizeWith id bs := by
  unfold Sequence.from_midi Sequence.from_midiWith at h
  cases hb : buildTracks midi with
  | none => rw [hb] at h; cases h
  | some bs =>
    rw [hb] at h
    simp only [Option.map_some', Option.some.injEq] at h
    exact ⟨bs, rfl, h.symm⟩

/-- Claim C4: on every successfully built `Sequence`, the three global
timelines are non-decreasing in time, the tempo list is non-empty with first
entry at time 0 (synthesized as `Tempo{0, 120}` when needed), and a file with
no `SetTempo` meta yields exactly `[Tempo{0, 120}]`. -/
theorem timelines_sorted_and_default_tempo (midi : MIDIFile) (seq : Sequence)
    (h : Sequence.from_midi midi = some seq) :
    List.Pairwise (fun a b : Tempo => a.time ≤ b.time) seq.qpm ∧
    List.Pairwise (fun a b : TimeSignature => a.time ≤ b.time) seq.time_signatures ∧
    List.Pairwise (fun a b : KeySignature => a.time ≤ b.time) seq.key_signatures ∧
    seq.qpm ≠ [] ∧
    seq.qpm.head?.map Tempo.time = some 0 ∧
    ((∀ track ∈ midi.tracks, ∀ m ∈ track, isSetTempo m = false) →
      seq.qpm = [{ time := 0, qpm := DEFAULT_QPM }]) := by
  obtain ⟨bs, hbs, rfl⟩ := from_midi_eq midi seq h
  obtain ⟨hn1, hn2, hn3⟩ := buildTracks_nonneg midi bs hbs
  have hq : List.Pairwise (fun a b : Tempo => a.time ≤ b.time)
      (sortByTime Tempo.time bs.qpm) := sortByTime_sorted Tempo.time bs.qpm
  have hqn : ∀ x ∈ sortByTime Tempo.time bs.qpm, 0 ≤ x.time :=
    fun x hx => hn1 x ((sortByTime_mem Tempo.time bs.qpm x).mp hx)
  refine ⟨?_, ?_, ?_, ?_, ?_, ?_⟩
  · rw [finalizeWith_qpm]
    cases hc : sortByTime Tempo.time bs.qpm with
    | nil => simp
    | cons t0 rest =>
      rw [hc] at hq hqn
      by_cases h0 : 0 < t0.time
      · simp only [if_pos h0]
        refine List.Pairwise.cons ?_ hq
        intro x hx
        exact hqn x hx
      · simp only [if_neg h0]
        exact hq
  · rw [finalizeWith_time_signatures]
    exact sortByTime_sorted TimeSignature.time bs.time_signatures
  · rw [finalizeWith_key_signatures]
    exact sortByTime_sorted KeySignature.time bs.key_signatures
  · rw [finalizeWith_qpm]
    cases hc : sortByTime Tempo.time bs.qpm with
    | nil => simp
    | cons t0 rest =>
      by_cases h0 : 0 < t0.time <;> simp [h0]
  · rw [finalizeWith_qpm]
    cases hc : sortByTime Tempo.time bs.qpm with
    | nil => simp
    | cons t0 rest =>
      rw [hc] at hqn
      by_cases h0 : 0 < t0.time
      · simp [h0]
      · have : t0.time = 0 := le_antisymm (not_lt.mp h0) (hqn t0 (by simp))
        simp [h0, this]
  · intro hno
    rw [finalizeWith_qpm, buildTracks_no_settempo midi bs hbs hno, sortByTime_nil]

/-- Witness for C4 on `oneNoteFile` (no `SetTempo` anywhere): the decoded
tempo list is exactly the synthesized default. -/
theorem timelines_sorted_and_default_tempo_witness :
    ∃ seq, Sequence.from_midi oneNoteFile = some seq ∧
      seq.qpm = [{ time := 0, qpm := DEFAULT_QPM }] ∧ seq.qpm.head?.map Tempo.time = some 0 := by
  cases hseq : Sequence.from_midi oneNoteFile with
  | none => exact absurd hseq (by with_unfolding_all decide)
  | some seq =>
    obtain ⟨_, _, _, _, hhead, hdef⟩ := timelines_sorted_and_default_tempo oneNoteFile seq hseq
    exact ⟨seq, rfl, hdef (by decide), hhead⟩

/-- With an empty time-signature timeline and at least one track,
`start_in_measure` hits its `time_signatures[0]` out-of-bounds branch. -/
lemma start_in_measure_none (seq : Sequence) (hts : seq.time_signatures = [])
    (htr : seq.tracks ≠ []) : seq.start_in_measure = none := by
  cases hc : seq.tracks with
  | nil => exact absurd hc htr
  | cons t r => simp [Sequence.start_in_measure, hc, hts]

/-- Claim C10: decoding a file with no `TimeSignature` meta succeeds with an
*empty* `time_signatures` list (no 4/4 default is synthesized, unlike tempo),
and on such a sequence with at least one track `start_in_measure` reaches its
out-of-bounds branch (a panic in the Rust code). -/
theorem no_timesig_empty_and_start_in_measure_partial (midi : MIDIFile) (seq : Sequence)
    (hno : ∀ track ∈ midi.tracks, ∀ m ∈ track, isTimeSigMeta m = false)
    (h : Sequence.from_midi midi = some seq) :
    seq.time_signatures = [] ∧ (seq.tracks ≠ [] → seq.start_in_measure = none) := by
  obtain ⟨bs, hbs, rfl⟩ := from_midi_eq midi seq h
  have hts : (finalizeWith id bs).time_signatures = [] := by
    rw [finalizeWith_time_signatures, buildTracks_no_timesig midi bs hbs hno, sortByTime_nil]
  exact ⟨hts, fun htr => start_in_measure_none _ hts htr⟩

/-- Witness for C10 on `oneNoteFile`: the decode succeeds, the timeline is
empty, and `start_in_measure` indeed fails on the non-empty track list. -/
theorem no_timesig_empty_witness :
    ∃ seq, Sequence.from_midi oneNoteFile = some seq ∧
      seq.time_signatures = [] ∧ seq.start_in_measure = none := by
  cases hseq : Sequence.from_midi oneNoteFile with
  | none => exact absurd hseq (by with_unfolding_all decide)
  | some seq =>
    obtain ⟨hts, hpart⟩ :=
      no_timesig_empty_and_start_in_measure_partial oneNoteFile seq (by decide) hseq
    have htr : seq.tracks ≠ [] := by
      have hmap : (Sequence.from_midi oneNoteFile).map (fun s => s.tracks.isEmpty)
          = some false := by with_unfolding_all decide
      rw [hseq] at hmap
      simp only [Option.map_some', Option.some.injEq] at hmap
      intro hemp
      rw [hemp] at hmap
      simp at hmap
    exact ⟨seq, rfl, hts, hpart htr⟩

lemma lookup_updateEntry_self (m : List ((Nat × Nat) × Track)) (k : Nat × Nat)
    (dflt : Track) (f : Track → Track) :
    (updateEntry m k dflt f).lookup k = some (f ((m.lookup k).getD dflt)) := by
  induction m with
  | nil => simp [updateEntry, List.lookup]
  | cons kt rest ih =>
    obtain ⟨k', t⟩ := kt
    by_cases hk : k' = k
    · subst hk
      simp [updateEntry, List.lookup]
    · simp only [updateEntry, if_neg hk, List.lookup]
      have : (k == k') = false := by simpa [beq_iff_eq] using (Ne.symm hk)
      simp [this, ih]

lemma lookup_updateEntry_ne (m : List ((Nat × Nat) × Track)) (k k' : Nat × Nat)
    (dflt : Track) (f : Track → Track) (h : k' ≠ k) :
    (updateEntry m k dflt f).lookup k' = m.lookup k' := by
  induction m with
  | nil =>
    simp only [updateEntry, List.lookup]
    have : (k' == k) = false := by simpa [beq_iff_eq] using h
    simp [this]
  | cons kt rest ih =>
    obtain ⟨k'', t⟩ := kt
    by_cases hk : k'' = k
    · subst hk
      have : (k' == k'') = false := by simpa [beq_iff_eq] using h
      simp [updateEntry, List.lookup, this]
    · simp only [updateEntry, if_neg hk, List.lookup]
      cases hbeq : (k' == k'') <;> simp [ih]

/-- An `updateEntry` whose mutation keeps the entry's notes (and whose
default has default notes) leaves every `notesP` projection unchanged. -/
lemma notesP_updateEntry_same_notes (tracks : List ((Nat × Nat) × Track))
    (k k' : Nat × Nat) (p : Nat) (dflt : Track) (f : Track → Track)
    (hd : dflt.notes = Track.default.notes) (hf : ∀ t, (f t).notes = t.notes) :
    notesP (updateEntry tracks k dflt f) k' p = notesP tracks k' p := by
  by_cases hk : k' = k
  · subst hk
    rw [notesP, lookup_updateEntry_self]
    cases hl : tracks.lookup k' with
    | none => simp [notesP, hl, hf, hd]
    | some t => simp [notesP, hl, hf]
  · rw [notesP, lookup_updateEntry_ne _ _ _ _ _ hk, notesP]

/-- The `notesP` at a different key ignores an `updateEntry`. -/
lemma notesP_updateEntry_ne (tracks : List ((Nat × Nat) × Track))
    (k k' : Nat × Nat) (p : Nat) (dflt : Track) (f : Track → Track) (hk : k' ≠ k) :
    notesP (updateEntry tracks k dflt f) k' p = notesP tracks k' p := by
  rw [notesP, lookup_updateEntry_ne _ _ _ _ _ hk, notesP]

/-- An `updateEntry` that appends one note at key `k` appends its filtered
image to `notesP` there. -/
lemma notesP_updateEntry_append (tracks : List ((Nat × Nat) × Track))
    (k : Nat × Nat) (p : Nat) (dflt : Track) (note : Note) (f : Track → Track)
    (hd : dflt.notes = Track.default.notes) (hf : ∀ t, (f t).notes = t.notes ++ [note]) :
    notesP (updateEntry tracks k dflt f) k p
      = notesP tracks k p ++ [note].filter (fun n => decide (n.pitch = p)) := by
  rw [notesP, lookup_updateEntry_self]
  cases hl : tracks.lookup k with
  | none => simp [notesP, hl, hf, hd, List.filter_append]
  | some t => simp [notesP, hl, hf, List.filter_append]

/-- The `notesP_updateEntry_append` specialized to the note-appending mutation the
builder actually performs (stated with the literal record-update lambda so it
rewrites syntactically). -/
lemma notesP_updateEntry_addNote (tracks : List ((Nat × Nat) × Track))
    (k : Nat × Nat) (p : Nat) (dflt : Track) (note : Note)
    (hd : dflt.notes = Track.default.notes) :
    notesP (updateEntry tracks k dflt (fun t => { t with notes := t.notes ++ [note] })) k p
      = notesP tracks k p ++ [note].filter (fun n => decide (n.pitch = p)) :=
  notesP_updateEntry_append tracks k p dflt note _ hd (fun t => rfl)

/-- Simulation: one builder step acts on the `(c, p)` projection exactly as
the abstract machine `stepCP` does on `(c, p)`-relevant messages, and leaves
it unchanged on all others. -/
lemma projCP_step (tpq : ℚ) (trackIdx c p : Nat) (st st' : ScanState × BuildState)
    (msg : Message) (h : processMessage tpq trackIdx st msg = some st') :
    projCP trackIdx c p st' =
      if isCP c p msg then stepCP tpq (projCP trackIdx c p st) msg
      else projCP trackIdx c p st := by
  obtain ⟨ss, bs⟩ := st
  cases msg with
  | Meta m =>
    simp only [processMessage] at h
    obtain ⟨_, _, _, _, _, htr, hss⟩ := processMeta_step tpq trackIdx ss bs m st' h
    simp [isCP, projCP, htr, hss]
  | Event e =>
    simp only [processMessage] at h
    unfold processEvent at h
    dsimp only at h
    cases hst : e.status
    case ProgramChange =>
      rw [hst] at h
      dsimp only at h
      injection h with h
      subst h
      simp [isCP, hst, projCP]
    case ControlChange =>
      rw [hst] at h
      simp only [Event.control_change, hst] at h
      injection h with h
      subst h
      simp only [isCP, hst, projCP]
      rw [if_neg (by simp)]
      refine Prod.ext rfl ?_
      exact notesP_updateEntry_same_notes _ _ _ _ _ _ rfl (fun t => rfl)
    case NoteOn =>
      rw [hst] at h
      simp only [Event.key, Event.velocity, Event.channel, hst, Option.getD_some] at h
      by_cases hv : e.data.getD 2 0 = 0
      · rw [if_pos (Or.inl hv)] at h
        by_cases honv : (ss.lastNoteOn (e.data.getD 0 0 &&& 0x0F) (e.data.getD 1 0)).2 = 0
        · rw [if_neg (by simp [-List.getD_eq_getElem?_getD, honv])] at h
          injection h with h
          subst h
          split
          next hcp =>
            simp only [isCP, hst, Event.channel, Event.key, Event.velocity,
              Option.getD_some, decide_eq_true_eq] at hcp
            obtain ⟨-, hc, hp⟩ := hcp
            subst hc
            subst hp
            simp [-List.getD_eq_getElem?_getD, stepCP, projCP, Event.velocity, hst,
              Option.getD_some, hv, honv]
          next => rfl
        · rw [if_pos honv] at h
          injection h with h
          subst h
          by_cases hch : (e.data.getD 0 0 &&& 0x0F) = c
          · by_cases hkey : e.data.getD 1 0 = p
            · subst hch
              subst hkey
              rw [if_pos (show isCP (e.data.getD 0 0 &&& 0x0F) (e.data.getD 1 0) (.Event e) = true
                by simp [-List.getD_eq_getElem?_getD, isCP, hst, Event.channel, Event.key])]
              refine Prod.ext ?_ ?_
              · simp [-List.getD_eq_getElem?_getD, projCP, stepCP, Event.velocity, hst, hv, honv]
              · simp only [projCP]
                rw [notesP_updateEntry_addNote _ _ _ _ _ (by rfl)]
                simp [-List.getD_eq_getElem?_getD, stepCP, Event.velocity, Event.key, hst, hv, honv]
            · subst hch
              rw [if_neg (show ¬ isCP (e.data.getD 0 0 &&& 0x0F) p (.Event e) = true
                by simp [-List.getD_eq_getElem?_getD, isCP, hst, Event.channel, Event.key, hkey])]
              refine Prod.ext ?_ ?_
              · simp only [projCP]
                rw [if_neg (fun hand => hkey hand.2.symm)]
              · simp only [projCP]
                rw [notesP_updateEntry_addNote _ _ _ _ _ (by rfl)]
                simp [-List.getD_eq_getElem?_getD, hkey]
          · rw [if_neg (show ¬ isCP c p (.Event e) = true
              by simp [-List.getD_eq_getElem?_getD, isCP, hst, Event.channel, Event.key] <;> omega)]
            refine Prod.ext ?_ ?_
            · simp only [projCP]
              rw [if_neg (fun hand => hch hand.1.symm)]
            · simp only [projCP]
              rw [notesP_updateEntry_ne _ _ _ _ _ _ (fun hk => hch (congrArg Prod.snd hk).symm)]
      · rw [if_neg (show ¬ (e.data.getD 2 0 = 0 ∨ EventStatus.NoteOn = EventStatus.NoteOff)
          by push_neg; exact ⟨hv, by decide⟩)] at h
        injection h with h
        subst h
        by_cases hch : (e.data.getD 0 0 &&& 0x0F) = c
        · by_cases hkey : e.data.getD 1 0 = p
          · subst hch
            subst hkey
            rw [if_pos (show isCP (e.data.getD 0 0 &&& 0x0F) (e.data.getD 1 0) (.Event e) = true
              by simp [-List.getD_eq_getElem?_getD, isCP, hst, Event.channel, Event.key])]
            refine Prod.ext ?_ ?_
            · simp [-List.getD_eq_getElem?_getD, projCP, stepCP, Event.velocity, hst, hv]
            · simp [-List.getD_eq_getElem?_getD, projCP, stepCP, Event.velocity, hst, hv]
          · subst hch
            rw [if_neg (show ¬ isCP (e.data.getD 0 0 &&& 0x0F) p (.Event e) = true
              by simp [-List.getD_eq_getElem?_getD, isCP, hst, Event.channel, Event.key, hkey])]
            refine Prod.ext ?_ rfl
            simp only [projCP]
            rw [if_neg (fun hand => hkey hand.2.symm)]
        · rw [if_neg (show ¬ isCP c p (.Event e) = true
            by simp [-List.getD_eq_getElem?_getD, isCP, hst, Event.channel, Event.key] <;> omega)]
          refine Prod.ext ?_ rfl
          simp only [projCP]
          rw [if_neg (fun hand => hch hand.1.symm)]
    case NoteOff =>
      rw [hst] at h
      simp only [Event.key, Event.velocity, Event.channel, hst, Option.getD_some] at h
      rw [if_pos (Or.inr trivial)] at h
      by_cases honv : (ss.lastNoteOn (e.data.getD 0 0 &&& 0x0F) (e.data.getD 1 0)).2 = 0
      · rw [if_neg (by simp [-List.getD_eq_getElem?_getD, honv])] at h
        injection h with h
        subst h
        split
        next hcp =>
          simp only [isCP, hst, Event.channel, Event.key, Event.velocity,
            Option.getD_some, decide_eq_true_eq] at hcp
          obtain ⟨-, hc, hp⟩ := hcp
          subst hc
          subst hp
          simp [-List.getD_eq_getElem?_getD, stepCP, projCP, Event.velocity, hst,
            Option.getD_some, honv]
        next => rfl
      · rw [if_pos honv] at h
        injection h with h
        subst h
        by_cases hch : (e.data.getD 0 0 &&& 0x0F) = c
        · by_cases hkey : e.data.getD 1 0 = p
          · subst hch
            subst hkey
            rw [if_pos (show isCP (e.data.getD 0 0 &&& 0x0F) (e.data.getD 1 0) (.Event e) = true
              by simp [-List.getD_eq_getElem?_getD, isCP, hst, Event.channel, Event.key])]
            refine Prod.ext ?_ ?_
            · simp [-List.getD_eq_getElem?_getD, projCP, stepCP, Event.velocity, hst, honv]
            · simp only [projCP]
              rw [notesP_updateEntry_addNote _ _ _ _ _ (by rfl)]
              simp [-List.getD_eq_getElem?_getD, stepCP, Event.velocity, Event.key, hst, honv]
          · subst hch
            rw [if_neg (show ¬ isCP (e.data.getD 0 0 &&& 0x0F) p (.Event e) = true
              by simp [-List.getD_eq_getElem?_getD, isCP, hst, Event.channel, Event.key, hkey])]
            refine Prod.ext ?_ ?_
            · simp only [projCP]
              rw [if_neg (fun hand => hkey hand.2.symm)]
            · simp only [projCP]
              rw [notesP_updateEntry_addNote _ _ _ _ _ (by rfl)]
              simp [-List.getD_eq_getElem?_getD, hkey]
        · rw [if_neg (show ¬ isCP c p (.Event e) = true
            by simp [-List.getD_eq_getElem?_getD, isCP, hst, Event.channel, Event.key] <;> omega)]
          refine Prod.ext ?_ ?_
          · simp only [projCP]
            rw [if_neg (fun hand => hch hand.1.symm)]
          · simp only [projCP]
            rw [notesP_updateEntry_ne _ _ _ _ _ _ (fun hk => hch (congrArg Prod.snd hk).symm)]
    all_goals
      rw [hst] at h
      dsimp only at h
      injection h with h
      subst h
      simp [isCP, hst, projCP]

/-- The whole message loop acts on the `(c, p)` projection as the abstract
machine folded over the `(c, p)`-filtered subsequence. -/
lemma projCP_foldlM (tpq : ℚ) (trackIdx c p : Nat) (msgs : List Message)
    (st st' : ScanState × BuildState)
    (h : msgs.foldlM (processMessage tpq trackIdx) st = some st') :
    projCP trackIdx c p st' =
      (msgs.filter (isCP c p)).foldl (stepCP tpq) (projCP trackIdx c p st) := by
  induction msgs generalizing st with
  | nil =>
    simp only [List.foldlM_nil] at h
    cases h
    simp
  | cons m msgs ih =>
    rw [List.foldlM_cons] at h
    cases hm : processMessage tpq trackIdx st m with
    | none => rw [hm] at h; cases h
    | some st1 =>
      rw [hm] at h
      simp only [Option.bind_eq_bind, Option.some_bind] at h
      have hstep := projCP_step tpq trackIdx c p st st1 m hm
      rw [List.filter_cons]
      by_cases hc : isCP c p m
      · rw [if_pos (by simpa using hc), List.foldl_cons]
        rw [if_pos hc] at hstep
        rw [ih st1 h, hstep]
      · rw [if_neg (by simpa using hc)]
        rw [if_neg hc] at hstep
        rw [ih st1 h, hstep]

/-- Closes with no open note (`velocity` slot 0) are no-ops for the abstract
machine. -/
lemma foldl_stepCP_closes (tpq : ℚ) (l : List Message)
    (hl : ∀ m ∈ l, ∃ e2, m = .Event e2 ∧
      (e2.status = .NoteOff ∨ (e2.velocity).getD 0 = 0))
    (a : Nat) (notes : List Note) :
    l.foldl (stepCP tpq) ((a, 0), notes) = ((a, 0), notes) := by
  induction l with
  | nil => rfl
  | cons m l ih =>
    obtain ⟨e2, rfl, he2⟩ := hl m (List.mem_cons_self m l)
    rw [List.foldl_cons]
    have hstep : stepCP tpq ((a, 0), notes) (.Event e2) = ((a, 0), notes) := by
      rcases he2 with hoff | hvel
      · simp [stepCP, hoff]
      · simp [stepCP, hvel]
    rw [hstep]
    exact ih (fun m hm => hl m (List.mem_cons_of_mem _ hm))

/-- Claim C1: in a single-track stream whose `(channel c, pitch p)` events are
exactly a nonzero-velocity note-on at tick `t0` followed by a close at tick
`t1` (and then possibly further closes, which are dropped because the
open-note entry has been cleared), the built track map's `(0, c)` entry
contains exactly one pitch-`p` note: start `t0/d`, duration `(t1 - t0)/d`,
velocity the note-on's velocity. -/
theorem note_correlation
    (d : Nat) (ms : List Message) (c p v t0 t1 : Nat) (onE closeE : Event)
    (extra : List Message) (bs : BuildState)
    (hfilter : ms.filter (isCP c p) = (.Event onE) :: (.Event closeE) :: extra)
    (honst : onE.status = .NoteOn)
    (honvel : onE.velocity = some v) (hv : v ≠ 0) (ht0 : onE.time = t0)
    (hclose : closeE.status = .NoteOff ∨ (closeE.status = .NoteOn ∧ closeE.velocity = some 0))
    (hclosekey : closeE.key = some p)
    (ht1 : closeE.time = t1)
    (hextra : ∀ m ∈ extra, ∃ e2, m = .Event e2 ∧
      (e2.status = .NoteOff ∨ (e2.velocity).getD 0 = 0))
    (hbuild : buildTracks ⟨d, [ms]⟩ = some bs) :
    ∃ tr, bs.tracks.lookup (0, c) = some tr ∧
      tr.notes.filter (fun n => decide (n.pitch = p)) =
        [{ pitch := p, start := (t0 : ℚ) / (d : ℚ),
           duration := ((t1 - t0 : Nat) : ℚ) / (d : ℚ), velocity := v }] := by
  unfold buildTracks at hbuild
  split at hbuild
  · cases hbuild
  · simp only [List.enum, List.enumFrom, List.foldlM_cons, List.foldlM_nil,
      Option.pure_def, Option.bind_eq_bind, Option.bind_eq_some, Option.some.injEq] at hbuild
    obtain ⟨bs1, hpt, hbs1⟩ := hbuild
    subst hbs1
    unfold processTrack at hpt
    rw [Option.map_eq_some'] at hpt
    obtain ⟨pair, hfold, hpair⟩ := hpt
    have hproj := projCP_foldlM ((d : Nat) : ℚ) 0 c p ms _ pair hfold
    rw [hfilter] at hproj
    have hinit : ∀ bsI : BuildState, bsI.tracks = [] →
        projCP 0 c p (ScanState.init, bsI) = ((0, 0), []) := by
      intro bsI hbsI
      simp [projCP, ScanState.init, notesP, hbsI, List.lookup, Track.default]
    rw [hinit _ rfl, List.foldl_cons, List.foldl_cons] at hproj
    have hstep1 : stepCP ((d : Nat) : ℚ) ((0, 0), []) (.Event onE) = ((t0, v), []) := by
      have hne : ¬ (v = 0 ∨ onE.status = .NoteOff) := by
        rw [honst]
        push_neg
        exact ⟨hv, by decide⟩
      simp only [stepCP, honvel, Option.getD_some, if_neg hne, ht0]
    rw [hstep1] at hproj
    have hstep2 : stepCP ((d : Nat) : ℚ) ((t0, v), []) (.Event closeE)
        = ((t0, 0),
           ([{ pitch := p, start := (t0 : ℚ) / (d : ℚ),
               duration := ((t1 - t0 : Nat) : ℚ) / (d : ℚ),
               velocity := v }] : List Note)) := by
      have hcond : (closeE.velocity).getD 0 = 0 ∨ closeE.status = .NoteOff := by
        rcases hclose with hoff | ⟨-, hvel⟩
        · exact Or.inr hoff
        · exact Or.inl (by rw [hvel]; rfl)
      simp only [stepCP, if_pos hcond, hclosekey, Option.getD_some, ht1]
      simp [hv]
    rw [hstep2, foldl_stepCP_closes _ extra hextra] at hproj
    rw [← hpair]
    unfold projCP at hproj
    have hnotes := congrArg Prod.snd hproj
    simp only at hnotes
    cases hlook : pair.2.tracks.lookup (0, c) with
    | none =>
      rw [notesP, hlook] at hnotes
      simp [Track.default] at hnotes
    | some tr =>
      rw [notesP, hlook] at hnotes
      exact ⟨tr, rfl, hnotes⟩

/-- Witness for C1: the spec's example (note-on pitch 60 velocity 80 at tick
0, note-off at tick 480, division 480) yields exactly one note
`{pitch 60, start 0, duration 1, velocity 80}` in the `(0, 0)` track. -/
theorem note_correlation_witness :
    ∃ bs tr, buildTracks oneNoteFile = some bs ∧
      bs.tracks.lookup (0, 0) = some tr ∧
      tr.notes.filter (fun n => decide (n.pitch = 60)) =
        [{ pitch := 60, start := 0, duration := 1, velocity := 80 }] := by
  cases hbs : buildTracks oneNoteFile with
  | none => exact absurd hbs (by with_unfolding_all decide)
  | some bs =>
    obtain ⟨tr, h1, h2⟩ := note_correlation 480
      [.Event { time := 0, status := .NoteOn, data := [0x90, 60, 80, 0, 0, 0, 0, 0] },
       .Event { time := 480, status := .NoteOff, data := [0x80, 60, 0, 0, 0, 0, 0, 0] }]
      0 60 80 0 480
      { time := 0, status := .NoteOn, data := [0x90, 60, 80, 0, 0, 0, 0, 0] }
      { time := 480, status := .NoteOff, data := [0x80, 60, 0, 0, 0, 0, 0, 0] }
      [] bs (by decide) rfl rfl (by decide) rfl (Or.inl rfl) rfl rfl
      (by simp) hbs
    exact ⟨bs, tr, rfl, h1, h2.trans (by with_unfolding_all decide)⟩

end Midiparser

